import Mathlib

/-!
Shallow embedding of the `argon2` Go package (argon2.go): a password-hashing
value type with canonical textual encoding, parsing, constant-time comparison,
and a SQL scan/value adapter.  Go strings and byte slices are modelled as
`List Nat` of byte values; the external memory-hard KDF
(`golang.org/x/crypto/argon2.IDKey`) is modelled from the spec as an abstract
deterministic total function passed as a parameter.
-/

/-- Byte values of an ASCII string literal. -/
def asciiOf (s : String) : List Nat := s.data.map Char.toNat

/-- `strings.Split` with a one-byte separator (Go `strings.Split(s, "$")`). -/
def goSplit (sep : Nat) : List Nat → List (List Nat)
  | [] => [[]]
  | c :: rest =>
    match goSplit sep rest with
    | [] => [[]]
    | h :: t => if c = sep then [] :: h :: t else (c :: h) :: t

theorem goSplit_ne_nil (sep : Nat) (s : List Nat) : goSplit sep s ≠ [] := by
  cases s with
  | nil => simp [goSplit]
  | cons c rest =>
    simp only [goSplit]
    rcases h : goSplit sep rest with _ | ⟨h', t⟩
    · simp
    · by_cases hc : c = sep <;> simp [hc]

theorem goSplit_no_sep (sep : Nat) (s : List Nat) (h : sep ∉ s) :
    goSplit sep s = [s] := by
  induction s with
  | nil => rfl
  | cons c rest ih =>
    have hc : c ≠ sep := fun hc => h (hc ▸ List.mem_cons_self c rest)
    have hrest : sep ∉ rest := fun hr => h (List.mem_cons_of_mem c hr)
    simp [goSplit, ih hrest, hc]

theorem goSplit_cons_sep (sep : Nat) (xs : List Nat) :
    goSplit sep (sep :: xs) = [] :: goSplit sep xs := by
  simp only [goSplit]
  rcases hg : goSplit sep xs with _ | ⟨h, t⟩
  · exact absurd hg (goSplit_ne_nil sep xs)
  · simp

theorem goSplit_append_sep (sep : Nat) (xs rest : List Nat) (h : sep ∉ xs) :
    goSplit sep (xs ++ sep :: rest) = xs :: goSplit sep rest := by
  induction xs with
  | nil =>
    simp only [List.nil_append, goSplit]
    rcases hg : goSplit sep rest with _ | ⟨h', t⟩
    · exact absurd hg (goSplit_ne_nil sep rest)
    · simp
  | cons c xs ih =>
    have hc : c ≠ sep := fun hc => h (hc ▸ List.mem_cons_self c xs)
    have hxs : sep ∉ xs := fun hr => h (List.mem_cons_of_mem c hr)
    simp [goSplit, ih hxs, hc]

/-- The base64 standard alphabet, as a byte: index `i < 64` to ASCII. -/
def b64Char (i : Nat) : Nat :=
  if i < 26 then 65 + i
  else if i < 52 then 97 + (i - 26)
  else if i < 62 then 48 + (i - 52)
  else if i = 62 then 43
  else 47

/-- `base64.RawStdEncoding.EncodeToString`: unpadded standard base64. -/
def b64Encode : List Nat → List Nat
  | b0 :: b1 :: b2 :: rest =>
    b64Char (b0 / 4) :: b64Char (b0 % 4 * 16 + b1 / 16) ::
      b64Char (b1 % 16 * 4 + b2 / 64) :: b64Char (b2 % 64) :: b64Encode rest
  | [b0, b1] => [b64Char (b0 / 4), b64Char (b0 % 4 * 16 + b1 / 16), b64Char (b1 % 16 * 4)]
  | [b0] => [b64Char (b0 / 4), b64Char (b0 % 4 * 16)]
  | [] => []

/-- Value of one base64 standard-alphabet byte. -/
def b64Val (c : Nat) : Option Nat :=
  if 65 ≤ c ∧ c ≤ 90 then some (c - 65)
  else if 97 ≤ c ∧ c ≤ 122 then some (c - 97 + 26)
  else if 48 ≤ c ∧ c ≤ 57 then some (c - 48 + 52)
  else if c = 43 then some 62
  else if c = 47 then some 63
  else none

/-- Decode a newline-free base64 byte stream in groups of four, with a final
group of two or three bytes allowed (unpadded); a trailing single byte is a
corrupt-input error, and extra trailing bits are dropped (Go's non-strict
decoder). -/
def b64DecodeQuads : List Nat → Option (List Nat)
  | [] => some []
  | [_] => none
  | [c0, c1] => do
    let v0 ← b64Val c0
    let v1 ← b64Val c1
    pure [v0 * 4 + v1 / 16]
  | [c0, c1, c2] => do
    let v0 ← b64Val c0
    let v1 ← b64Val c1
    let v2 ← b64Val c2
    pure [v0 * 4 + v1 / 16, v1 % 16 * 16 + v2 / 4]
  | c0 :: c1 :: c2 :: c3 :: rest => do
    let v0 ← b64Val c0
    let v1 ← b64Val c1
    let v2 ← b64Val c2
    let v3 ← b64Val c3
    let tail ← b64DecodeQuads rest
    pure ((v0 * 4 + v1 / 16) :: (v1 % 16 * 16 + v2 / 4) :: (v2 % 4 * 64 + v3) :: tail)

/-- `base64.RawStdEncoding.DecodeString`: newline bytes are ignored, then
decode in quads. -/
def b64Decode (s : List Nat) : Option (List Nat) :=
  b64DecodeQuads (s.filter (fun c => !(c == 13 || c == 10)))

/-- ASCII decimal digit test. -/
def isDigitB (c : Nat) : Bool := 48 ≤ c && c ≤ 57

/-- Numeric value of a digit string, most significant first. -/
def digitsVal (ds : List Nat) : Nat := ds.foldl (fun acc d => acc * 10 + (d - 48)) 0

/-- `fmt`'s scanner skips spaces and tabs before a numeric verb. -/
def skipSpaces (s : List Nat) : List Nat := s.dropWhile (fun c => c == 32 || c == 9)

/-- Scan an optionally signed decimal as `%d` into a 64-bit signed integer
(Go `fmt.Sscanf` with an `int` argument): optional sign, at least one digit,
in-range for int64; trailing input is left unconsumed. -/
def scanSignedDec (s : List Nat) : Option Int :=
  let s := skipSpaces s
  match s with
  | 45 :: r =>
    let ds := r.takeWhile isDigitB
    if ds.isEmpty then none
    else if digitsVal ds ≤ 2 ^ 63 then some (-(digitsVal ds : Int)) else none
  | 43 :: r =>
    let ds := r.takeWhile isDigitB
    if ds.isEmpty then none
    else if digitsVal ds < 2 ^ 63 then some (digitsVal ds : Int) else none
  | r =>
    let ds := r.takeWhile isDigitB
    if ds.isEmpty then none
    else if digitsVal ds < 2 ^ 63 then some (digitsVal ds : Int) else none

/-- Scan an unsigned decimal as `%d` into an unsigned integer of the given
exclusive `bound` (Go `fmt.Sscanf` with a `uint32`/`uint8` argument): no sign
accepted, at least one digit, overflow is an error; returns the value and the
unconsumed rest. -/
def scanUnsignedDec (bound : Nat) (s : List Nat) : Option (Nat × List Nat) :=
  let s := skipSpaces s
  let ds := s.takeWhile isDigitB
  if ds.isEmpty then none
  else if digitsVal ds < bound then some (digitsVal ds, s.dropWhile isDigitB) else none

/-- `fmt.Sscanf(v, "v=%d", &version)` with `version : int`. -/
def sscanfVD : List Nat → Option Int
  | 118 :: 61 :: rest => scanSignedDec rest
  | _ => none

/-- `fmt.Sscanf(v, "m=%d,t=%d,p=%d", &m, &i, &p)` with `m i : uint32`,
`p : uint8`. -/
def sscanfMTP (s : List Nat) : Option (Nat × Nat × Nat) :=
  match s with
  | 109 :: 61 :: rest =>
    match scanUnsignedDec (2 ^ 32) rest with
    | none => none
    | some (m, rest) =>
      match rest with
      | 44 :: 116 :: 61 :: rest =>
        match scanUnsignedDec (2 ^ 32) rest with
        | none => none
        | some (t, rest) =>
          match rest with
          | 44 :: 112 :: 61 :: rest =>
            match scanUnsignedDec (2 ^ 8) rest with
            | none => none
            | some (p, _) => some (m, t, p)
          | _ => none
      | _ => none
  | _ => none

/-- Decimal digit expansion used by `fmt.Sprintf` `%d` (fuel-structured so it
reduces in the kernel). -/
def natDigitsAux : Nat → Nat → List Nat → List Nat
  | 0, _, acc => acc
  | fuel + 1, n, acc =>
    if n = 0 then acc else natDigitsAux fuel (n / 10) ((n % 10 + 48) :: acc)

/-- ASCII decimal rendering of a natural number. -/
def natDecimal (n : Nat) : List Nat :=
  if n = 0 then [48] else natDigitsAux n n []

/-- `crypto/subtle.ConstantTimeCompare`: 1 when the byte slices have equal
length and contents, else 0; the accumulator ORs the XOR of each byte pair. -/
def constantTimeCompare (x y : List Nat) : Nat :=
  if x.length = y.length then
    if (List.zipWith Nat.xor x y).foldl Nat.lor 0 = 0 then 1 else 0
  else 0

/-- Shape of the external KDF primitive
`argon2.IDKey(password, salt, time, memory, threads, keyLen)`.
Modelled from the spec: an external trusted deterministic total function;
the real `golang.org/x/crypto/argon2` implementation is outside this
repository. -/
def IDKeyT : Type := List Nat → List Nat → Nat → Nat → Nat → Nat → List Nat

/-- Process-wide default time cost (`iterations = 3`). -/
def iterationsDefault : Nat := 3

/-- Process-wide default memory cost in KiB (`memory = 64 * 1024`). -/
def memoryDefault : Nat := 64 * 1024

/-- Process-wide default lane count (`parallelism = 2`). -/
def parallelismDefault : Nat := 2

/-- Process-wide default derived-key length in bytes (`keyLength = 32`). -/
def keyLengthDefault : Nat := 32

/-- Salt length drawn by `makeSalt` (`saltLength = 16`). -/
def saltLength : Nat := 16

/-- Expected `$`-field count of an encoded hash (`encodedSlicesCount = 6`). -/
def encodedSlicesCount : Nat := 6

/-- `golang.org/x/crypto/argon2.Version` (19). -/
def argon2Version : Nat := 19

/-- The `Argon2` struct.  Go nil/empty byte slices are both `[]`. -/
structure Argon2 where
  salt : List Nat := []
  iterations : Nat := 0
  memory : Nat := 0
  parallelism : Nat := 0
  keyLength : Nat := 0
  hashed : List Nat := []
  isValid : Bool := false
deriving DecidableEq, Repr

/-- Errors surfaced by `NewByEncoded` (the wrapped `fmt.Errorf` decode errors
are distinguished by which field failed). -/
inductive Argon2Err where
  | invalidEncodedHash
  | incompatibleVersion
  | decodeVersionFailure
  | decodeSaltFailure
  | decodeHashedFailure
  | decodeOptionsFailure
deriving DecidableEq, Repr

/-- The spec's `DecodeFailure` class: a wrapped decode error, distinct from
`ErrInvalidEncodedHash` and `ErrIncompatibleVersion`. -/
def Argon2Err.isDecodeFailure : Argon2Err → Bool
  | .decodeVersionFailure => true
  | .decodeSaltFailure => true
  | .decodeHashedFailure => true
  | .decodeOptionsFailure => true
  | _ => false

/-- `(*Argon2).makeHash`: derive the key from the receiver's own salt and
parameters and store it in `hashed`. -/
def Argon2.makeHash (idKey : IDKeyT) (a : Argon2) (toHash : List Nat) : Argon2 :=
  { a with hashed := idKey toHash a.salt a.iterations a.memory a.parallelism a.keyLength }

/-- `(Argon2).String`: the canonical encoding
`$argon2id$v=<version>$m=<m>,t=<t>,p=<p>$<b64 salt>$<b64 hash>`; the empty
string for an invalid value. -/
def Argon2.string (a : Argon2) : List Nat :=
  if a.isValid = false then []
  else
    36 :: (asciiOf "argon2id" ++
      36 :: (asciiOf "v=" ++ natDecimal argon2Version ++
        36 :: (asciiOf "m=" ++ natDecimal a.memory ++ asciiOf ",t=" ++
            natDecimal a.iterations ++ asciiOf ",p=" ++ natDecimal a.parallelism ++
          36 :: (b64Encode a.salt ++ 36 :: b64Encode a.hashed))))

/-- `(Argon2).Compare`: rebuild a value from the receiver's own salt and
parameters, rehash the candidate, and compare in constant time. -/
def Argon2.compare (idKey : IDKeyT) (a : Argon2) (toCompare : List Nat) : Bool :=
  let b : Argon2 :=
    { salt := a.salt, iterations := a.iterations, memory := a.memory,
      parallelism := a.parallelism, keyLength := a.keyLength, isValid := true }
  let b := b.makeHash idKey toCompare
  constantTimeCompare a.hashed b.hashed == 1

/-- `New`: build a value with the process defaults, draw `saltLength` random
bytes from the source (failure aborts with the source's error), then hash. -/
def New (idKey : IDKeyT) (src : Nat → Option (List Nat)) (toHash : List Nat) :
    Except Unit Argon2 :=
  let a : Argon2 :=
    { memory := memoryDefault, iterations := iterationsDefault,
      parallelism := parallelismDefault, keyLength := keyLengthDefault,
      isValid := true }
  match src saltLength with
  | none => .error ()
  | some salt => .ok (Argon2.makeHash idKey { a with salt := salt } toHash)

/-- `NewByEncoded`: split on `$` into exactly six fields, check the version,
base64-decode salt and hash, scan the options, and assemble the value with
`keyLength` taken from the decoded hash's length. -/
def NewByEncoded (encoded : List Nat) : Except Argon2Err Argon2 :=
  if (goSplit 36 encoded).length ≠ encodedSlicesCount then .error .invalidEncodedHash
  else
    match sscanfVD ((goSplit 36 encoded).getD 2 []) with
    | none => .error .decodeVersionFailure
    | some version =>
      if version ≠ (argon2Version : Int) then .error .incompatibleVersion
      else
        match b64Decode ((goSplit 36 encoded).getD 4 []) with
        | none => .error .decodeSaltFailure
        | some salt =>
          match b64Decode ((goSplit 36 encoded).getD 5 []) with
          | none => .error .decodeHashedFailure
          | some hashed =>
            match sscanfMTP ((goSplit 36 encoded).getD 3 []) with
            | none => .error .decodeOptionsFailure
            | some (m, t, p) =>
              .ok { salt := salt, iterations := t, memory := m, parallelism := p,
                    keyLength := hashed.length, hashed := hashed, isValid := true }

/-- Raw values handed to `sql.Scanner.Scan`: SQL NULL, a string, or any
non-null non-string value. -/
inductive SQLSrc where
  | null
  | str (s : List Nat)
  | nonString
deriving DecidableEq

/-- Scan-layer errors: `ErrScan` for a non-string value, or a wrapped decode
error from `NewByEncoded`. -/
inductive ScanErr where
  | errScanNotString
  | decodeErr (e : Argon2Err)
deriving DecidableEq

/-- `(*Argon2).Scan`: NULL clears the validity flag; a non-string is rejected
untouched; a string is parsed, and on parse failure the receiver is assigned
the zero value returned alongside the error.  Returns the receiver's
post-state and the error. -/
def Argon2.scan (a : Argon2) (src : SQLSrc) : Argon2 × Option ScanErr :=
  match src with
  | .null => ({ a with isValid := false }, none)
  | .nonString => (a, some .errScanNotString)
  | .str s =>
    match NewByEncoded s with
    | .error e => ({}, some (.decodeErr e))
    | .ok b => (b, none)

/-- `(Argon2).Value`: NULL for an invalid value, else the canonical string;
the error result is always nil. -/
def Argon2.value (a : Argon2) : Option (List Nat) × Option Unit :=
  if a.isValid = false then (none, none) else (some a.string, none)

/-! ### Helper lemmas -/

theorem b64Val_b64Char : ∀ i < 64, b64Val (b64Char i) = some i := by decide

theorem b64Char_ge (i : Nat) : 43 ≤ b64Char i := by
  unfold b64Char
  split <;> [omega; skip]
  split <;> [omega; skip]
  split <;> [omega; skip]
  split <;> omega

theorem b64Char_ne_36 (i : Nat) : b64Char i ≠ 36 := by
  have := b64Char_ge i; omega

theorem mem_b64Encode_ge (bs : List Nat) : ∀ c ∈ b64Encode bs, 43 ≤ c := by
  match bs with
  | [] => simp [b64Encode]
  | [b0] =>
    simp only [b64Encode, List.mem_cons, List.not_mem_nil, or_false]
    rintro c (rfl | rfl) <;> exact b64Char_ge _
  | [b0, b1] =>
    simp only [b64Encode, List.mem_cons, List.not_mem_nil, or_false]
    rintro c (rfl | rfl | rfl) <;> exact b64Char_ge _
  | b0 :: b1 :: b2 :: rest =>
    simp only [b64Encode, List.mem_cons]
    rintro c (rfl | rfl | rfl | rfl | hm)
    · exact b64Char_ge _
    · exact b64Char_ge _
    · exact b64Char_ge _
    · exact b64Char_ge _
    · exact mem_b64Encode_ge rest c hm

theorem not_mem_b64Encode_36 (bs : List Nat) : 36 ∉ b64Encode bs := by
  intro h
  have := mem_b64Encode_ge bs 36 h
  omega

theorem filter_b64Encode_newlines (bs : List Nat) :
    (b64Encode bs).filter (fun c => !(c == 13 || c == 10)) = b64Encode bs := by
  rw [List.filter_eq_self]
  intro c hc
  have := mem_b64Encode_ge bs c hc
  simp only [Bool.not_eq_true', Bool.or_eq_false_iff, beq_eq_false_iff_ne, ne_eq]
  omega

theorem b64DecodeQuads_b64Encode (bs : List Nat) (h : ∀ b ∈ bs, b < 256) :
    b64DecodeQuads (b64Encode bs) = some bs := by
  match bs with
  | [] => rfl
  | [b0] =>
    have hb0 : b0 < 256 := h b0 (by simp)
    have h1 : b64Val (b64Char (b0 / 4)) = some (b0 / 4) := b64Val_b64Char _ (by omega)
    have h2 : b64Val (b64Char (b0 % 4 * 16)) = some (b0 % 4 * 16) := b64Val_b64Char _ (by omega)
    simp [b64Encode, b64DecodeQuads, h1, h2]
    omega
  | [b0, b1] =>
    have hb0 : b0 < 256 := h b0 (by simp)
    have hb1 : b1 < 256 := h b1 (by simp)
    have h1 : b64Val (b64Char (b0 / 4)) = some (b0 / 4) := b64Val_b64Char _ (by omega)
    have h2 : b64Val (b64Char (b0 % 4 * 16 + b1 / 16)) = some (b0 % 4 * 16 + b1 / 16) :=
      b64Val_b64Char _ (by omega)
    have h3 : b64Val (b64Char (b1 % 16 * 4)) = some (b1 % 16 * 4) := b64Val_b64Char _ (by omega)
    simp [b64Encode, b64DecodeQuads, h1, h2, h3]
    omega
  | b0 :: b1 :: b2 :: rest =>
    have hb0 : b0 < 256 := h b0 (by simp)
    have hb1 : b1 < 256 := h b1 (by simp)
    have hb2 : b2 < 256 := h b2 (by simp)
    have hrest : ∀ b ∈ rest, b < 256 := fun b hb => h b (by simp [hb])
    have h1 : b64Val (b64Char (b0 / 4)) = some (b0 / 4) := b64Val_b64Char _ (by omega)
    have h2 : b64Val (b64Char (b0 % 4 * 16 + b1 / 16)) = some (b0 % 4 * 16 + b1 / 16) :=
      b64Val_b64Char _ (by omega)
    have h3 : b64Val (b64Char (b1 % 16 * 4 + b2 / 64)) = some (b1 % 16 * 4 + b2 / 64) :=
      b64Val_b64Char _ (by omega)
    have h4 : b64Val (b64Char (b2 % 64)) = some (b2 % 64) := b64Val_b64Char _ (by omega)
    have e0 : b0 / 4 * 4 + (b0 % 4 * 16 + b1 / 16) / 16 = b0 := by omega
    have e1 : (b0 % 4 * 16 + b1 / 16) % 16 * 16 + (b1 % 16 * 4 + b2 / 64) / 4 = b1 := by omega
    have e2 : (b1 % 16 * 4 + b2 / 64) % 4 * 64 + b2 % 64 = b2 := by omega
    have ih := b64DecodeQuads_b64Encode rest hrest
    cases rest with
    | nil => simp [b64Encode, b64DecodeQuads, h1, h2, h3, h4, e0, e1, e2]
    | cons r rs =>
      simp only [b64Encode]
      rw [show b64DecodeQuads
            (b64Char (b0 / 4) :: b64Char (b0 % 4 * 16 + b1 / 16) ::
              b64Char (b1 % 16 * 4 + b2 / 64) :: b64Char (b2 % 64) :: b64Encode (r :: rs)) =
          (do
            let v0 ← b64Val (b64Char (b0 / 4))
            let v1 ← b64Val (b64Char (b0 % 4 * 16 + b1 / 16))
            let v2 ← b64Val (b64Char (b1 % 16 * 4 + b2 / 64))
            let v3 ← b64Val (b64Char (b2 % 64))
            let tail ← b64DecodeQuads (b64Encode (r :: rs))
            pure ((v0 * 4 + v1 / 16) :: (v1 % 16 * 16 + v2 / 4) :: (v2 % 4 * 64 + v3) :: tail))
          from rfl]
      simp [h1, h2, h3, h4, ih, e0, e1, e2]

theorem b64Decode_b64Encode (bs : List Nat) (h : ∀ b ∈ bs, b < 256) :
    b64Decode (b64Encode bs) = some bs := by
  rw [b64Decode, filter_b64Encode_newlines, b64DecodeQuads_b64Encode bs h]

theorem lor_eq_zero_iff (a b : Nat) : a ||| b = 0 ↔ a = 0 ∧ b = 0 := by
  constructor
  · intro hab
    constructor <;> (apply Nat.eq_of_testBit_eq; intro i; simp only [Nat.zero_testBit])
    · have := congrArg (fun n => Nat.testBit n i) hab
      simp only [Nat.testBit_or, Nat.zero_testBit, Bool.or_eq_false_iff] at this
      exact this.1
    · have := congrArg (fun n => Nat.testBit n i) hab
      simp only [Nat.testBit_or, Nat.zero_testBit, Bool.or_eq_false_iff] at this
      exact this.2
  · rintro ⟨rfl, rfl⟩; rfl

theorem foldl_lor_eq_zero (l : List Nat) (a : Nat) :
    l.foldl Nat.lor a = 0 ↔ a = 0 ∧ ∀ x ∈ l, x = 0 := by
  induction l generalizing a with
  | nil => simp
  | cons x xs ih =>
    simp only [List.foldl_cons, ih, List.mem_cons]
    rw [show Nat.lor a x = a ||| x from rfl, lor_eq_zero_iff]
    constructor
    · rintro ⟨⟨ha, hx⟩, hxs⟩
      exact ⟨ha, fun y hy => hy.elim (fun h => h ▸ hx) (hxs y)⟩
    · rintro ⟨ha, hall⟩
      exact ⟨⟨ha, hall x (Or.inl rfl)⟩, fun y hy => hall y (Or.inr hy)⟩

theorem zipWith_xor_all_zero (x : List Nat) : ∀ y : List Nat, x.length = y.length →
    ((∀ z ∈ List.zipWith Nat.xor x y, z = 0) ↔ x = y) := by
  induction x with
  | nil =>
    intro y hlen
    cases y with
    | nil => simp
    | cons b ys => simp at hlen
  | cons a xs ih =>
    intro y hlen
    cases y with
    | nil => simp at hlen
    | cons b ys =>
      simp only [List.length_cons, Nat.add_right_cancel_iff] at hlen
      simp only [List.zipWith_cons_cons, List.mem_cons, List.cons.injEq]
      constructor
      · intro hall
        exact ⟨Nat.xor_eq_zero.mp (hall _ (Or.inl rfl)),
               (ih ys hlen).mp fun z hz => hall z (Or.inr hz)⟩
      · rintro ⟨rfl, rfl⟩
        intro z hz
        rcases hz with rfl | hz
        · exact Nat.xor_eq_zero.mpr rfl
        · exact ((ih xs hlen).mpr rfl) z hz

theorem constantTimeCompare_eq_one_iff (x y : List Nat) :
    constantTimeCompare x y = 1 ↔ x = y := by
  constructor
  · intro h1
    by_cases hlen : x.length = y.length
    · by_cases hz : (List.zipWith Nat.xor x y).foldl Nat.lor 0 = 0
      · exact (zipWith_xor_all_zero x y hlen).mp ((foldl_lor_eq_zero _ 0).mp hz).2
      · rw [constantTimeCompare, if_pos hlen, if_neg hz] at h1
        exact absurd h1 (by decide)
    · rw [constantTimeCompare, if_neg hlen] at h1
      exact absurd h1 (by decide)
  · rintro rfl
    rw [constantTimeCompare, if_pos rfl,
      if_pos ((foldl_lor_eq_zero _ 0).mpr ⟨rfl, (zipWith_xor_all_zero x x rfl).mpr rfl⟩)]

theorem compare_eq_true_iff (idKey : IDKeyT) (a : Argon2) (c : List Nat) :
    Argon2.compare idKey a c = true ↔
      idKey c a.salt a.iterations a.memory a.parallelism a.keyLength = a.hashed := by
  simp only [Argon2.compare, Argon2.makeHash, beq_iff_eq, constantTimeCompare_eq_one_iff]
  exact eq_comm

/-! ### Concrete instantiations used by witnesses -/

/-- A concrete deterministic KDF satisfying the spec's primitive contract
(output has exactly `keyLen` bytes); used only to instantiate theorems. -/
def testKDF : IDKeyT := fun pwd salt t m p kl =>
  (List.range kl).map
    (fun i => (pwd.foldl (· + ·) 0 + salt.foldl (· + ·) 0 + t + m + p + i) % 256)

theorem testKDF_length (pwd salt : List Nat) (t m p kl : Nat) :
    (testKDF pwd salt t m p kl).length = kl := by
  simp [testKDF]

theorem testKDF_bytes (pwd salt : List Nat) (t m p kl : Nat) :
    ∀ b ∈ testKDF pwd salt t m p kl, b < 256 := by
  intro b hb
  simp only [testKDF, List.mem_map] at hb
  obtain ⟨i, _, rfl⟩ := hb
  exact Nat.mod_lt _ (by omega)

/-- A concrete random source that always supplies `n` zero bytes. -/
def testSrc : Nat → Option (List Nat) := fun n => some (List.replicate n 0)

theorem testSrc_length (n : Nat) (bs : List Nat) (h : testSrc n = some bs) :
    bs.length = n := by
  simp only [testSrc, Option.some.injEq] at h
  subst h
  exact List.length_replicate n 0

/-! ### Claim theorems -/

/-- C2: for every Hash Value `a` and candidate `c`, `Compare` returns true iff
the KDF applied to `c` with `a`'s own stored salt, iterations, memory,
parallelism and keyLength yields exactly `a`'s stored hashed bytes.  `Compare`
is a pure function of the receiver (the receiver is passed by value and never
written), so the receiver is unmodified by the call. -/
theorem compare_true_iff_rederived_key_matches (idKey : IDKeyT) (a : Argon2)
    (c : List Nat) :
    Argon2.compare idKey a c = true ↔
      idKey c a.salt a.iterations a.memory a.parallelism a.keyLength = a.hashed :=
  compare_eq_true_iff idKey a c

/-- C3: `Compare` never fails: for every Hash Value — including the zero value
and values parsed with arbitrary parameters such as `t=0` or `p=0` — it
returns the boolean telling whether the re-derived key matches the stored
bytes, under the spec's model of the KDF as an infallible total primitive. -/
theorem compare_never_fails (idKey : IDKeyT) (a : Argon2) (c : List Nat) :
    Argon2.compare idKey a c =
      decide (idKey c a.salt a.iterations a.memory a.parallelism a.keyLength
        = a.hashed) := by
  by_cases h : idKey c a.salt a.iterations a.memory a.parallelism a.keyLength = a.hashed
  · rw [(compare_eq_true_iff idKey a c).mpr h]
    simp [h]
  · have : Argon2.compare idKey a c ≠ true := fun hc =>
      h ((compare_eq_true_iff idKey a c).mp hc)
    simp only [Bool.not_eq_true] at this
    rw [this]
    simp [h]

/-- C4: `NewByEncoded` fails with `ErrInvalidEncodedHash` exactly when
splitting the input on `$` does not yield exactly 6 parts; in particular the
5-field string `$argon2id$v=19$m=65536,t=3,p=2$salt` fails with it, and no
other input is rejected with that error. -/
theorem invalid_format_iff_not_six_fields (s : List Nat) :
    (NewByEncoded s = Except.error Argon2Err.invalidEncodedHash ↔
      (goSplit 36 s).length ≠ encodedSlicesCount) ∧
    NewByEncoded (asciiOf "$argon2id$v=19$m=65536,t=3,p=2$salt") =
      Except.error Argon2Err.invalidEncodedHash := by
  refine ⟨?_, by rfl⟩
  unfold NewByEncoded
  by_cases h6 : (goSplit 36 s).length ≠ encodedSlicesCount
  · exact iff_of_true (if_pos h6) h6
  · rw [if_neg h6]
    simp only [h6, iff_false]
    intro h
    rcases hv : sscanfVD ((goSplit 36 s).getD 2 []) with _ | v <;> simp only [hv] at h
    · simp at h
    · by_cases hv19 : v ≠ (argon2Version : Int)
      · rw [if_pos hv19] at h
        simp at h
      · rw [if_neg hv19] at h
        rcases hs : b64Decode ((goSplit 36 s).getD 4 []) with _ | salt <;>
          simp only [hs] at h
        · simp at h
        · rcases hh : b64Decode ((goSplit 36 s).getD 5 []) with _ | hashed <;>
            simp only [hh] at h
          · simp at h
          · rcases hm : sscanfMTP ((goSplit 36 s).getD 3 []) with _ | ⟨m, t, p⟩ <;>
              simp only [hm] at h <;> simp at h

/-- C5: a 6-field encoded string whose third field scans as `v=<integer>` with
an integer other than the supported version 19 is rejected with
`ErrIncompatibleVersion` (a distinct error from `ErrInvalidEncodedHash`),
with no fallback. -/
theorem version_mismatch_rejected (s : List Nat) (v : Int)
    (h6 : (goSplit 36 s).length = encodedSlicesCount)
    (hv : sscanfVD ((goSplit 36 s).getD 2 []) = some v)
    (hne : v ≠ (argon2Version : Int)) :
    NewByEncoded s = Except.error Argon2Err.incompatibleVersion ∧
      Argon2Err.incompatibleVersion ≠ Argon2Err.invalidEncodedHash := by
  refine ⟨?_, by decide⟩
  unfold NewByEncoded
  rw [if_neg (by omega)]
  simp only [hv]
  rw [if_pos hne]

/-- C5 witness: an otherwise well-formed encoding with `v=1` is rejected with
`ErrIncompatibleVersion`. -/
theorem version_mismatch_rejected_witness :
    NewByEncoded (asciiOf "$argon2id$v=1$m=65536,t=3,p=2$c29tZXNhbHQ$aGFzaA") =
      Except.error Argon2Err.incompatibleVersion ∧
      Argon2Err.incompatibleVersion ≠ Argon2Err.invalidEncodedHash :=
  version_mismatch_rejected (asciiOf "$argon2id$v=1$m=65536,t=3,p=2$c29tZXNhbHQ$aGFzaA")
    1 (by decide) (by decide) (by decide)

/-- C6: for a 6-field encoded string whose version field scans as the
supported version, `NewByEncoded` fails with a DecodeFailure-class error iff
the fourth field does not scan as `m=<uint>,t=<uint>,p=<uint>` or the fifth or
sixth field is not valid unpadded standard base64; otherwise parsing
succeeds. -/
theorem decode_failure_iff_bad_options_or_base64 (s : List Nat)
    (h6 : (goSplit 36 s).length = encodedSlicesCount)
    (hv : sscanfVD ((goSplit 36 s).getD 2 []) = some (argon2Version : Int)) :
    ((∃ e, NewByEncoded s = Except.error e ∧ e.isDecodeFailure = true) ↔
      (sscanfMTP ((goSplit 36 s).getD 3 []) = none ∨
        b64Decode ((goSplit 36 s).getD 4 []) = none ∨
        b64Decode ((goSplit 36 s).getD 5 []) = none)) ∧
    ((∃ a, NewByEncoded s = Except.ok a) ↔
      ¬(sscanfMTP ((goSplit 36 s).getD 3 []) = none ∨
        b64Decode ((goSplit 36 s).getD 4 []) = none ∨
        b64Decode ((goSplit 36 s).getD 5 []) = none)) := by
  unfold NewByEncoded
  rw [if_neg (by omega)]
  simp only [hv]
  rw [if_neg (by simp)]
  rcases hs : b64Decode ((goSplit 36 s).getD 4 []) with _ | salt
  · simp [Argon2Err.isDecodeFailure]
  · rcases hh : b64Decode ((goSplit 36 s).getD 5 []) with _ | hashed
    · simp [Argon2Err.isDecodeFailure]
    · rcases hm : sscanfMTP ((goSplit 36 s).getD 3 []) with _ | ⟨m, t, p⟩
      · simp [Argon2Err.isDecodeFailure]
      · simp [Argon2Err.isDecodeFailure]

/-- C6 witness: the repository's own test vector is a 6-field, version-19
encoding whose options and base64 fields all decode, so parsing succeeds. -/
theorem decode_failure_iff_witness :
    ∃ a, NewByEncoded (asciiOf
      "$argon2id$v=19$m=65536,t=3,p=2$WDlCUU15WlF4OFNGd3d6OA$0nJpNUfEq3ELzeoGwcd+cG4er9wu3DgYCBJb2w3nnI8")
      = Except.ok a :=
  (decode_failure_iff_bad_options_or_base64 _ (by decide) (by decide)).2.mpr
    (by decide)

/-- C7: `New` draws `saltLength = 16` fresh bytes from the secure random
source and derives the key with the process-wide defaults
(iterations 3, memory 65536 KiB, parallelism 2, keyLength 32) applied to the
plaintext and that salt; it fails exactly when the source fails, and on
success returns a valid Hash Value carrying those parameters. -/
theorem new_uses_fresh_salt_and_defaults (idKey : IDKeyT)
    (src : Nat → Option (List Nat)) (P : List Nat)
    (hsrc : ∀ n bs, src n = some bs → bs.length = n) :
    (src saltLength = none → New idKey src P = Except.error ()) ∧
    (∀ salt, src saltLength = some salt →
      salt.length = 16 ∧
      New idKey src P = Except.ok
        { salt := salt, iterations := 3, memory := 65536, parallelism := 2,
          keyLength := 32, hashed := idKey P salt 3 65536 2 32,
          isValid := true }) := by
  constructor
  · intro hnone
    unfold New
    rw [hnone]
  · intro salt hsome
    refine ⟨hsrc saltLength salt hsome, ?_⟩
    unfold New
    rw [hsome]
    simp [Argon2.makeHash, iterationsDefault, memoryDefault, parallelismDefault,
      keyLengthDefault]

/-- C7 witness: with a concrete random source supplying 16 zero bytes and the
concrete test KDF, `New` succeeds with the defaults, the supplied salt, and
the derived key. -/
theorem new_uses_fresh_salt_and_defaults_witness :
    (List.replicate 16 0).length = 16 ∧
    New testKDF testSrc (asciiOf "password") = Except.ok
      { salt := List.replicate 16 0, iterations := 3, memory := 65536,
        parallelism := 2, keyLength := 32,
        hashed := testKDF (asciiOf "password") (List.replicate 16 0) 3 65536 2 32,
        isValid := true } :=
  (new_uses_fresh_salt_and_defaults testKDF testSrc (asciiOf "password")
    testSrc_length).2 (List.replicate 16 0) rfl

/-- C8: the zero Hash Value renders to the empty string and `Value` yields
SQL NULL with a nil error; conversely `Scan` of a NULL raw value reports no
error and leaves the receiver invalid, so it renders to the empty string and
stores as NULL. -/
theorem zero_value_empty_render_and_null_storage :
    Argon2.string {} = [] ∧ Argon2.value {} = (none, none) ∧
    (∀ a : Argon2,
      (Argon2.scan a SQLSrc.null).2 = none ∧
      (Argon2.scan a SQLSrc.null).1.isValid = false ∧
      (Argon2.scan a SQLSrc.null).1.string = [] ∧
      (Argon2.scan a SQLSrc.null).1.value = (none, none)) := by
  refine ⟨rfl, rfl, ?_⟩
  intro a
  refine ⟨rfl, rfl, ?_, ?_⟩ <;> simp [Argon2.scan, Argon2.string, Argon2.value]

/-- C10: when `Scan` fails on a string that does not parse, the receiver is
overwritten with the zero value (previously stored salt, parameters and hash
are lost), while for a non-null, non-string raw value the receiver is left
completely unchanged. -/
theorem scan_failure_post_state :
    (∀ (a : Argon2) (s : List Nat) (e : Argon2Err),
      NewByEncoded s = Except.error e →
      Argon2.scan a (SQLSrc.str s) = ({}, some (ScanErr.decodeErr e))) ∧
    (∀ a : Argon2,
      Argon2.scan a SQLSrc.nonString = (a, some ScanErr.errScanNotString)) := by
  constructor
  · intro a s e he
    simp [Argon2.scan, he]
  · intro a
    rfl

/-- C10 witness: scanning an unparsable string overwrites a populated
receiver with the zero value; a non-string value leaves it unchanged. -/
theorem scan_failure_post_state_witness :
    Argon2.scan
      { salt := [1, 2], iterations := 9, memory := 7, parallelism := 1,
        keyLength := 2, hashed := [3, 4], isValid := true }
      (SQLSrc.str (asciiOf "garbage")) =
      ({}, some (ScanErr.decodeErr Argon2Err.invalidEncodedHash)) :=
  scan_failure_post_state.1 _ (asciiOf "garbage") Argon2Err.invalidEncodedHash
    (by rfl)

/-! ### Invariant of reachable Hash Values -/

/-- The spec's data-model invariant: `hashed` and `salt` both absent, or both
present with `hashed` of length `keyLength`. -/
def hashInvariant (a : Argon2) : Prop :=
  (a.salt = [] ∧ a.hashed = []) ∨ a.hashed.length = a.keyLength

theorem newByEncoded_ok_hashed_length (s : List Nat) (a : Argon2)
    (h : NewByEncoded s = Except.ok a) : a.hashed.length = a.keyLength := by
  unfold NewByEncoded at h
  by_cases h6 : (goSplit 36 s).length ≠ encodedSlicesCount
  · rw [if_pos h6] at h
    simp at h
  · rw [if_neg h6] at h
    rcases hv : sscanfVD ((goSplit 36 s).getD 2 []) with _ | v <;> simp only [hv] at h
    · simp at h
    · by_cases hv19 : v ≠ (argon2Version : Int)
      · rw [if_pos hv19] at h
        simp at h
      · rw [if_neg hv19] at h
        rcases hs : b64Decode ((goSplit 36 s).getD 4 []) with _ | salt <;>
          simp only [hs] at h
        · simp at h
        · rcases hh : b64Decode ((goSplit 36 s).getD 5 []) with _ | hashed <;>
            simp only [hh] at h
          · simp at h
          · rcases hm : sscanfMTP ((goSplit 36 s).getD 3 []) with _ | ⟨m, t, p⟩ <;>
              simp only [hm] at h
            · simp at h
            · rw [Except.ok.injEq] at h
              subst h
              rfl

/-- Values reachable through the public operations, for a fixed KDF and
random source: the zero value, `New`, `NewByEncoded`, and the post-state of
any `Scan`. -/
inductive Reachable (idKey : IDKeyT) (src : Nat → Option (List Nat)) : Argon2 → Prop where
  | zero : Reachable idKey src {}
  | ofNew (P a) : New idKey src P = Except.ok a → Reachable idKey src a
  | ofEncoded (s a) : NewByEncoded s = Except.ok a → Reachable idKey src a
  | ofScan (v : SQLSrc) (a0 a : Argon2) (err : Option ScanErr) :
      Reachable idKey src a0 → Argon2.scan a0 v = (a, err) → Reachable idKey src a

/-- C9: every Hash Value reachable through the public operations satisfies
the data-model invariant, provided the KDF primitive honours its output-length
contract.  All operations of the embedding are pure functions of the receiver,
so no operation mutates an already-constructed value. -/
theorem reachable_values_satisfy_invariant (idKey : IDKeyT)
    (src : Nat → Option (List Nat))
    (hkl : ∀ pwd s t m p kl, (idKey pwd s t m p kl).length = kl) :
    ∀ a, Reachable idKey src a → hashInvariant a := by
  intro a h
  induction h with
  | zero => exact Or.inl ⟨rfl, rfl⟩
  | ofNew P a hn =>
    unfold New at hn
    rcases hs : src saltLength with _ | salt <;> rw [hs] at hn
    · simp at hn
    · rw [Except.ok.injEq] at hn
      subst hn
      right
      simp [Argon2.makeHash, hkl]
  | ofEncoded s a he => exact Or.inr (newByEncoded_ok_hashed_length s a he)
  | ofScan v a0 a err hr hscan ih =>
    cases v with
    | null =>
      simp only [Argon2.scan, Prod.mk.injEq] at hscan
      obtain ⟨rfl, -⟩ := hscan
      rcases ih with ⟨h1, h2⟩ | h1
      · exact Or.inl ⟨h1, h2⟩
      · exact Or.inr h1
    | nonString =>
      simp only [Argon2.scan, Prod.mk.injEq] at hscan
      obtain ⟨rfl, -⟩ := hscan
      exact ih
    | str s' =>
      simp only [Argon2.scan] at hscan
      rcases hne : NewByEncoded s' with e | b <;> simp only [hne] at hscan <;>
        rw [Prod.mk.injEq] at hscan
      · obtain ⟨rfl, -⟩ := hscan
        exact Or.inl ⟨rfl, rfl⟩
      · obtain ⟨rfl, -⟩ := hscan
        exact Or.inr (newByEncoded_ok_hashed_length s' b hne)

/-- C9 witness: the invariant holds at a concrete reachable value, the one
parsed from the repository's own test vector. -/
theorem reachable_values_satisfy_invariant_witness :
    hashInvariant
      { salt := [88, 57, 66, 81, 77, 121, 90, 81, 120, 56, 83, 70, 119, 119, 122, 56],
        iterations := 3, memory := 65536, parallelism := 2, keyLength := 32,
        hashed := [210, 114, 105, 53, 71, 196, 171, 113, 11, 205, 234, 6, 193,
          199, 126, 112, 110, 30, 175, 220, 46, 220, 56, 24, 8, 18, 91, 219,
          13, 231, 156, 143],
        isValid := true } :=
  reachable_values_satisfy_invariant testKDF testSrc testKDF_length _
    (Reachable.ofEncoded (asciiOf
      "$argon2id$v=19$m=65536,t=3,p=2$WDlCUU15WlF4OFNGd3d6OA$0nJpNUfEq3ELzeoGwcd+cG4er9wu3DgYCBJb2w3nnI8")
      _ (by rfl))

/-- C1: round-trip — when the random source supplies the 16 salt bytes and
the KDF primitive is deterministic (a function honouring its output-length
and byte-range contracts), parsing the rendered encoding of a created value
succeeds and comparing against the original plaintext returns true. -/
theorem create_render_parse_compare_roundtrip (idKey : IDKeyT)
    (src : Nat → Option (List Nat)) (P salt : List Nat)
    (hkl : ∀ pwd s t m p kl, (idKey pwd s t m p kl).length = kl)
    (hkb : ∀ pwd s t m p kl, ∀ b ∈ idKey pwd s t m p kl, b < 256)
    (hsome : src saltLength = some salt)
    (hsb : ∀ b ∈ salt, b < 256) :
    ∃ a b, New idKey src P = Except.ok a ∧
      NewByEncoded (Argon2.string a) = Except.ok b ∧
      Argon2.compare idKey b P = true := by
  have ha : New idKey src P = Except.ok
      { salt := salt, iterations := 3, memory := 65536, parallelism := 2,
        keyLength := 32, hashed := idKey P salt 3 65536 2 32, isValid := true } := by
    unfold New
    rw [hsome]
    simp [Argon2.makeHash, iterationsDefault, memoryDefault, parallelismDefault,
      keyLengthDefault]
  have hsplit : goSplit 36 (Argon2.string
      { salt := salt, iterations := 3, memory := 65536, parallelism := 2,
        keyLength := 32, hashed := idKey P salt 3 65536 2 32, isValid := true }) =
      [[], asciiOf "argon2id", asciiOf "v=" ++ natDecimal argon2Version,
        asciiOf "m=" ++ natDecimal 65536 ++ asciiOf ",t=" ++ natDecimal 3 ++
          asciiOf ",p=" ++ natDecimal 2,
        b64Encode salt, b64Encode (idKey P salt 3 65536 2 32)] := by
    simp only [Argon2.string]
    rw [if_neg (by decide)]
    rw [goSplit_cons_sep,
      goSplit_append_sep 36 (asciiOf "argon2id") _ (by decide),
      goSplit_append_sep 36 (asciiOf "v=" ++ natDecimal argon2Version) _ (by decide),
      goSplit_append_sep 36 (asciiOf "m=" ++ natDecimal 65536 ++ asciiOf ",t=" ++
        natDecimal 3 ++ asciiOf ",p=" ++ natDecimal 2) _ (by decide),
      goSplit_append_sep 36 (b64Encode salt) _ (not_mem_b64Encode_36 salt),
      goSplit_no_sep 36 (b64Encode (idKey P salt 3 65536 2 32))
        (not_mem_b64Encode_36 _)]
  have hsalt_dec : b64Decode (b64Encode salt) = some salt := b64Decode_b64Encode salt hsb
  have hhash_dec : b64Decode (b64Encode (idKey P salt 3 65536 2 32)) =
      some (idKey P salt 3 65536 2 32) :=
    b64Decode_b64Encode _ (hkb P salt 3 65536 2 32)
  have h32 : (idKey P salt 3 65536 2 32).length = 32 := hkl P salt 3 65536 2 32
  have hv19 : sscanfVD (asciiOf "v=" ++ natDecimal argon2Version) =
      some (argon2Version : Int) := by decide
  have hmtp : sscanfMTP (asciiOf "m=" ++ natDecimal 65536 ++ asciiOf ",t=" ++
      natDecimal 3 ++ asciiOf ",p=" ++ natDecimal 2) = some (65536, 3, 2) := by decide
  have hparse : NewByEncoded (Argon2.string
      { salt := salt, iterations := 3, memory := 65536, parallelism := 2,
        keyLength := 32, hashed := idKey P salt 3 65536 2 32, isValid := true }) =
      Except.ok
        { salt := salt, iterations := 3, memory := 65536, parallelism := 2,
          keyLength := 32, hashed := idKey P salt 3 65536 2 32, isValid := true } := by
    unfold NewByEncoded
    rw [hsplit]
    rw [if_neg (by simp [encodedSlicesCount])]
    rw [show ([[], asciiOf "argon2id", asciiOf "v=" ++ natDecimal argon2Version,
        asciiOf "m=" ++ natDecimal 65536 ++ asciiOf ",t=" ++ natDecimal 3 ++
          asciiOf ",p=" ++ natDecimal 2,
        b64Encode salt, b64Encode (idKey P salt 3 65536 2 32)].getD 2 []) =
      asciiOf "v=" ++ natDecimal argon2Version from rfl]
    simp only [hv19]
    rw [if_neg (by simp)]
    rw [show ([[], asciiOf "argon2id", asciiOf "v=" ++ natDecimal argon2Version,
        asciiOf "m=" ++ natDecimal 65536 ++ asciiOf ",t=" ++ natDecimal 3 ++
          asciiOf ",p=" ++ natDecimal 2,
        b64Encode salt, b64Encode (idKey P salt 3 65536 2 32)].getD 4 []) =
      b64Encode salt from rfl]
    rw [show ([[], asciiOf "argon2id", asciiOf "v=" ++ natDecimal argon2Version,
        asciiOf "m=" ++ natDecimal 65536 ++ asciiOf ",t=" ++ natDecimal 3 ++
          asciiOf ",p=" ++ natDecimal 2,
        b64Encode salt, b64Encode (idKey P salt 3 65536 2 32)].getD 5 []) =
      b64Encode (idKey P salt 3 65536 2 32) from rfl]
    rw [show ([[], asciiOf "argon2id", asciiOf "v=" ++ natDecimal argon2Version,
        asciiOf "m=" ++ natDecimal 65536 ++ asciiOf ",t=" ++ natDecimal 3 ++
          asciiOf ",p=" ++ natDecimal 2,
        b64Encode salt, b64Encode (idKey P salt 3 65536 2 32)].getD 3 []) =
      asciiOf "m=" ++ natDecimal 65536 ++ asciiOf ",t=" ++ natDecimal 3 ++
        asciiOf ",p=" ++ natDecimal 2 from rfl]
    simp only [hsalt_dec, hhash_dec, hmtp, h32]
  refine ⟨_, _, ha, hparse, ?_⟩
  rw [compare_eq_true_iff]

/-- C1 witness: the round-trip at a concrete plaintext, salt source and test
KDF. -/
theorem create_render_parse_compare_roundtrip_witness :
    ∃ a b, New testKDF testSrc (asciiOf "password") = Except.ok a ∧
      NewByEncoded (Argon2.string a) = Except.ok b ∧
      Argon2.compare testKDF b (asciiOf "password") = true :=
  create_render_parse_compare_roundtrip testKDF testSrc (asciiOf "password")
    (List.replicate 16 0) testKDF_length testKDF_bytes rfl
    (by intro b hb; simp only [List.mem_replicate] at hb; omega)
